import Mathlib

/-!
# sqlite3pp extension layer (`sqlite3ppext.h`)

A shallow embedding of the typed adapters of `sqlite3pp::ext`: the scalar
adapter `functionx_impl` (with `context::to_tuple` and `Apply`), the aggregate
adapters `step0_impl` .. `step5_impl` and `finishN_impl`, `function_traits`,
and the two registries `function` and `aggregate`.

Conventions of the embedding.

* C++ types that occur as template arguments are codes of `CType`; their
  values are given by a family `V : CType → Type`.
* The overloads `context::get(int, T)`, `context::result`, `aggregate_data`
  and `aggregate_count` are declared in the header and defined elsewhere:
  `get` is a parameter `cget`, `result` is recorded as an event, the
  aggregate slot is the explicit state `Bucket`.
* Undefined behaviour of the scalar adapter (a user-data pointer that does
  not point to a live holder of the expected type) is `none`; a member call
  on an aggregate slot that holds no constructed accumulator sets the flag
  `Bucket.ub`.
* The engine is outside the header. Its registration entry point keeps one
  registration for each pair of name and arity and answers each call with a
  status that is an input of the model.
-/

namespace sqlite3pp
namespace ext

/-- Codes of the C++ types the header converts: the overload sets of
`context::get` (lines 93-98) and `context::result` (lines 78-85). -/
inductive CType where
  | int
  | double
  | long_long
  | c_str
  | string
  | blob
  | null_type
  deriving DecidableEq, Repr

/-- A dynamically tagged value: an element of a `std::tuple`, an element of
an argument pack, or the content of the engine's untyped result slot. -/
abbrev Value (V : CType → Type) : Type := (T : CType) × V T

/-- The callable type `std::function<β (Ps...)>`, curried. -/
def Fn (V : CType → Type) : List CType → Type → Type
  | [], β => β
  | P :: Ps, β => V P → Fn V Ps β

/-- The call expression `f(a...)` on an argument pack: defined when the pack
has the parameter types of `f`, position by position. -/
def call {V : CType → Type} {β : Type} : (Ps : List CType) → Fn V Ps β → List (Value V) → Option β
  | [], f, [] => some f
  | P :: Ps, f, ⟨T, v⟩ :: as =>
    if h : T = P then call Ps (f (h ▸ v)) as else none
  | [], _, _ :: _ => none
  | _ :: _, _, [] => none

/-- The engine's per-call context `sqlite3_context`, as far as the adapters
read it: the user-data pointer given at registration and the step counter of
the current bucket. -/
structure sqlite3_context where
  user_data : Option Nat
  aggregate_count : Int
  deriving DecidableEq, Repr

/-- The accessor `sqlite3_user_data`. -/
def sqlite3_user_data (ctx : sqlite3_context) : Option Nat := ctx.user_data

/-- The class `context` (lines 63-119): the three private members. -/
structure context (Cell : Type) where
  ctx_ : sqlite3_context
  nargs_ : Nat
  values_ : List Cell

/-- What an adapter does to the engine, in call order. -/
inductive Event (V : CType → Type) where
  | get (idx : Nat)
  | result (v : Value V)

/-- Line 74: `template <class T> T get(int idx) const`, which forwards to the
overload `get(idx, T())`; the overloads are the parameter `cget`. -/
def context.get {Cell : Type} {V : CType → Type}
    (cget : (T : CType) → Nat → List Cell → V T)
    (c : context Cell) (T : CType) (idx : Nat) : V T :=
  cget T idx c.values_

/-- Line 90: `int aggregate_count()`. -/
def context.aggregate_count {Cell : Type} (c : context Cell) : Int :=
  c.ctx_.aggregate_count

/-- Lines 104-113: `to_tuple_impl`. The second component lists the `get`
calls in the order in which they are made: `h` is initialised before the
recursive call is evaluated. -/
def to_tuple_impl {Cell : Type} {V : CType → Type}
    (cget : (T : CType) → Nat → List Cell → V T)
    (index : Nat) (c : context Cell) : List CType → List (Value V) × List (Event V)
  | [] => ([], [])
  | H :: Ts =>
    let h : Value V := ⟨H, c.get cget H index⟩
    let rest := to_tuple_impl cget (index + 1) c Ts
    (h :: rest.1, Event.get index :: rest.2)

/-- Lines 100-103: `to_tuple<Ts...>()`. -/
def context.to_tuple {Cell : Type} {V : CType → Type}
    (cget : (T : CType) → Nat → List Cell → V T)
    (c : context Cell) (Ts : List CType) : List (Value V) × List (Event V) :=
  to_tuple_impl cget 0 c Ts

/-- Lines 123-147: `Apply<N>::apply(f, t, a...)`. `Apply<N>` passes
`std::get<N-1>(t)` in front of the pack and continues with `Apply<N-1>`;
`Apply<0>` calls `f(a...)`. -/
def Apply {V : CType → Type} {β : Type} (Ps : List CType) (f : Fn V Ps β)
    (t : List (Value V)) : Nat → List (Value V) → Option β
  | 0, a => call Ps f a
  | N + 1, a =>
    match t[N]? with
    | some x => Apply Ps f t N (x :: a)
    | none => none

/-- Lines 149-155: `apply(f, t)`, which starts `Apply` at the tuple size. -/
def apply {V : CType → Type} {β : Type} (Ps : List CType) (f : Fn V Ps β)
    (t : List (Value V)) : Option β :=
  Apply Ps f t t.length []

/-- A function signature `R(Args...)`. -/
structure Signature where
  R : CType
  Args : List CType
  deriving DecidableEq, Repr

/-- A heap object `std::function<F>` created by `new` in `function::create`,
seen through the `shared_ptr<void>` that owns it. -/
structure Holder (V : CType → Type) where
  F : Signature
  h : Fn V F.Args (V F.R)

/-- The free store, as far as holders live in it: the live holders by
address, and the next address `new` hands out (never one that is live). -/
structure Heap (V : CType → Type) where
  live : List (Nat × Holder V)
  next : Nat

/-- Reading through a raw pointer: the holder at a live address. -/
def Heap.deref {V : CType → Type} (m : Heap V) (p : Option Nat) : Option (Holder V) :=
  match p with
  | none => none
  | some a => (m.live.find? (fun e => e.1 == a)).map Prod.snd

/-- The expression `new std::function<F>(h)`. -/
def Heap.new {V : CType → Type} (m : Heap V) (o : Holder V) : Nat × Heap V :=
  (m.next, { live := (m.next, o) :: m.live, next := m.next + 1 })

/-- The release of the last `shared_ptr` to the object at `p`. -/
def Heap.delete {V : CType → Type} (m : Heap V) (p : Option Nat) : Heap V :=
  match p with
  | none => m
  | some a => { m with live := m.live.filter (fun e => !(e.1 == a)) }

/-- The conversion `static_cast<std::function<F>*>(p)` followed by `*p`: the
stored callable, when the object has that type. -/
def Holder.cast {V : CType → Type} (o : Holder V) (F : Signature) :
    Option (Fn V F.Args (V F.R)) :=
  if hF : o.F = F then some (hF ▸ o.h) else none

/-- Lines 157-163: `functionx_impl<R, Ps...>`. The `static_cast` of the user
data is defined when it points to a live `std::function<R (Ps...)>`. The
value is the list of engine calls made, in order. -/
def functionx_impl {Cell : Type} {V : CType → Type}
    (cget : (T : CType) → Nat → List Cell → V T)
    (R : CType) (Ps : List CType) (mem : Heap V)
    (ctx : sqlite3_context) (nargs : Nat) (values : List Cell) : Option (List (Event V)) :=
  let c : context Cell := ⟨ctx, nargs, values⟩
  match (mem.deref (sqlite3_user_data ctx)).bind (fun o => o.cast ⟨R, Ps⟩) with
  | none => none
  | some f =>
    let t := c.to_tuple cget Ps
    match apply Ps f t.1 with
    | some r => some (t.2 ++ [Event.result ⟨R, r⟩])
    | none => none

/-- The values passed to `context::result` during a call, in order. -/
def results {V : CType → Type} : List (Event V) → List (Value V)
  | [] => []
  | Event.result v :: es => v :: results es
  | Event.get _ :: es => results es

/-- The cell indices passed to `context::get` during a call, in order. -/
def reads {V : CType → Type} : List (Event V) → List Nat
  | [] => []
  | Event.get i :: es => i :: reads es
  | Event.result _ :: es => reads es

/-- The call `f(get<P1>(index), get<P2>(index+1), ...)` written out
parameter by parameter: the specification side of the scalar adapter. -/
def positional {V : CType → Type} {Cell : Type} {β : Type}
    (cget : (T : CType) → Nat → List Cell → V T) (values : List Cell) :
    (Ps : List CType) → Fn V Ps β → Nat → β
  | [], f, _ => f
  | P :: Ps, f, index => positional cget values Ps (f (cget P index values)) (index + 1)

/-! ## Aggregate adapters -/

/-- An accumulator class `T` usable with `create<T, Ps...>`: its object
state, its default constructor, its `step(Ps...)` member and its `finish()`
member returning `R`. -/
structure Accumulator (V : CType → Type) (Ps : List CType) (R : CType) where
  State : Type
  ctor : State
  step : State → Fn V Ps State
  finish : State → V R

/-- The per-bucket memory `aggregate_data(sizeof(T))` returns: zero-filled
when the engine allocates it, holding a `T` after placement `new`, and
holding none again after `~T()`. -/
inductive Slot (σ : Type) where
  | zeroed
  | object (t : σ)
  | destroyed

/-- What the aggregate adapters do on one bucket, in order: `new (t) T`,
`t->step(...)`, `c.result(t->finish())` and `t->~T()`. The value of a result
read from a slot that holds no constructed accumulator is `none`. -/
inductive AggEvent (V : CType → Type) where
  | construct
  | step
  | result (v : Option (Value V))
  | destroy

/-- One grouping bucket: its slot, the operations performed on it so far,
and whether a member or the destructor has been applied to a slot that holds
no constructed accumulator (undefined behaviour in C++). -/
structure Bucket (σ : Type) (V : CType → Type) where
  slot : Slot σ
  log : List (AggEvent V)
  ub : Bool

/-- The bucket as the engine first hands it out. -/
def Bucket.fresh {σ : Type} {V : CType → Type} : Bucket σ V :=
  ⟨Slot.zeroed, [], false⟩

/-- Placement construction `new (t) T`. -/
def Bucket.placement_new {σ : Type} {V : CType → Type} (b : Bucket σ V) (t : σ) : Bucket σ V :=
  { b with slot := Slot.object t, log := b.log ++ [AggEvent.construct] }

/-- The member call `t->step(...)`, where `m` is the member with its
arguments supplied. -/
def Bucket.call_step {σ : Type} {V : CType → Type} (b : Bucket σ V) (m : σ → σ) : Bucket σ V :=
  match b.slot with
  | Slot.object t => { b with slot := Slot.object (m t), log := b.log ++ [AggEvent.step] }
  | _ => { b with log := b.log ++ [AggEvent.step], ub := true }

/-- The statement `c.result(t->finish())`. -/
def Bucket.result_finish {σ : Type} {V : CType → Type} (b : Bucket σ V) (R : CType)
    (m : σ → V R) : Bucket σ V :=
  match b.slot with
  | Slot.object t => { b with log := b.log ++ [AggEvent.result (some ⟨R, m t⟩)] }
  | _ => { b with log := b.log ++ [AggEvent.result none], ub := true }

/-- The explicit destructor call `t->~T()`. -/
def Bucket.destructor {σ : Type} {V : CType → Type} (b : Bucket σ V) : Bucket σ V :=
  match b.slot with
  | Slot.object _ => { b with slot := Slot.destroyed, log := b.log ++ [AggEvent.destroy] }
  | _ => { b with slot := Slot.destroyed, log := b.log ++ [AggEvent.destroy], ub := true }

/-- Lines 282-289: `step0_impl<T>`. -/
def step0_impl {Cell : Type} {V : CType → Type} {R : CType}
    (_cget : (T : CType) → Nat → List Cell → V T)
    (T : Accumulator V [] R)
    (ctx : sqlite3_context) (t : Bucket T.State V) (nargs : Nat) (values : List Cell) :
    Bucket T.State V :=
  let c : context Cell := ⟨ctx, nargs, values⟩
  let t := if c.aggregate_count = 1 then t.placement_new T.ctor else t
  t.call_step (fun s => T.step s)

/-- Lines 291-298: `step1_impl<T, P1>`. -/
def step1_impl {Cell : Type} {V : CType → Type} {R P1 : CType}
    (cget : (T : CType) → Nat → List Cell → V T)
    (T : Accumulator V [P1] R)
    (ctx : sqlite3_context) (t : Bucket T.State V) (nargs : Nat) (values : List Cell) :
    Bucket T.State V :=
  let c : context Cell := ⟨ctx, nargs, values⟩
  let t := if c.aggregate_count = 1 then t.placement_new T.ctor else t
  t.call_step (fun s => T.step s (c.get cget P1 0))

/-- Lines 300-307: `step2_impl<T, P1, P2>`. -/
def step2_impl {Cell : Type} {V : CType → Type} {R P1 P2 : CType}
    (cget : (T : CType) → Nat → List Cell → V T)
    (T : Accumulator V [P1, P2] R)
    (ctx : sqlite3_context) (t : Bucket T.State V) (nargs : Nat) (values : List Cell) :
    Bucket T.State V :=
  let c : context Cell := ⟨ctx, nargs, values⟩
  let t := if c.aggregate_count = 1 then t.placement_new T.ctor else t
  t.call_step (fun s => T.step s (c.get cget P1 0) (c.get cget P2 1))

/-- Lines 309-316: `step3_impl<T, P1, P2, P3>`. -/
def step3_impl {Cell : Type} {V : CType → Type} {R P1 P2 P3 : CType}
    (cget : (T : CType) → Nat → List Cell → V T)
    (T : Accumulator V [P1, P2, P3] R)
    (ctx : sqlite3_context) (t : Bucket T.State V) (nargs : Nat) (values : List Cell) :
    Bucket T.State V :=
  let c : context Cell := ⟨ctx, nargs, values⟩
  let t := if c.aggregate_count = 1 then t.placement_new T.ctor else t
  t.call_step (fun s => T.step s (c.get cget P1 0) (c.get cget P2 1) (c.get cget P3 2))

/-- Lines 318-325: `step4_impl<T, P1, P2, P3, P4>`. -/
def step4_impl {Cell : Type} {V : CType → Type} {R P1 P2 P3 P4 : CType}
    (cget : (T : CType) → Nat → List Cell → V T)
    (T : Accumulator V [P1, P2, P3, P4] R)
    (ctx : sqlite3_context) (t : Bucket T.State V) (nargs : Nat) (values : List Cell) :
    Bucket T.State V :=
  let c : context Cell := ⟨ctx, nargs, values⟩
  let t := if c.aggregate_count = 1 then t.placement_new T.ctor else t
  t.call_step (fun s =>
    T.step s (c.get cget P1 0) (c.get cget P2 1) (c.get cget P3 2) (c.get cget P4 3))

/-- Lines 327-334: `step5_impl<T, P1, P2, P3, P4, P5>`. -/
def step5_impl {Cell : Type} {V : CType → Type} {R P1 P2 P3 P4 P5 : CType}
    (cget : (T : CType) → Nat → List Cell → V T)
    (T : Accumulator V [P1, P2, P3, P4, P5] R)
    (ctx : sqlite3_context) (t : Bucket T.State V) (nargs : Nat) (values : List Cell) :
    Bucket T.State V :=
  let c : context Cell := ⟨ctx, nargs, values⟩
  let t := if c.aggregate_count = 1 then t.placement_new T.ctor else t
  t.call_step (fun s =>
    T.step s (c.get cget P1 0) (c.get cget P2 1) (c.get cget P3 2) (c.get cget P4 3)
      (c.get cget P5 4))

/-- Lines 336-343: `finishN_impl<T>`. -/
def finishN_impl {V : CType → Type} {Ps : List CType} {R : CType}
    (T : Accumulator V Ps R) (_ctx : sqlite3_context) (t : Bucket T.State V) :
    Bucket T.State V :=
  (t.result_finish R T.finish).destructor

/-- The step adapter that `aggregate::create<T, Ps...>` (lines 357-385)
passes to the engine: one overload for each number of parameters up to five,
none beyond. -/
def step_impl {Cell : Type} {V : CType → Type} {R : CType}
    (cget : (T : CType) → Nat → List Cell → V T) :
    (Ps : List CType) → (T : Accumulator V Ps R) →
      Option (sqlite3_context → Bucket T.State V → Nat → List Cell → Bucket T.State V)
  | [], T => some (step0_impl cget T)
  | [_], T => some (step1_impl cget T)
  | [_, _], T => some (step2_impl cget T)
  | [_, _, _], T => some (step3_impl cget T)
  | [_, _, _, _], T => some (step4_impl cget T)
  | [_, _, _, _, _], T => some (step5_impl cget T)
  | _ :: _ :: _ :: _ :: _ :: _ :: _, _ => none

/-- The engine's use of one bucket: a step-adapter call for each row, with
the value `aggregate_count()` has during that call, then the one
finish-adapter call. -/
def bucket_lifetime {Cell : Type} {V : CType → Type} {σ : Type}
    (xStep : sqlite3_context → Bucket σ V → Nat → List Cell → Bucket σ V)
    (xFinal : sqlite3_context → Bucket σ V → Bucket σ V)
    (rows : List (Int × List Cell)) : Bucket σ V :=
  xFinal ⟨none, 0⟩
    (rows.foldl (fun b row => xStep ⟨none, row.1⟩ b row.2.length row.2) Bucket.fresh)

/-- The rows of a bucket with the engine's running count, starting at `n`. -/
def counted_from {Cell : Type} (n : Int) : List (List Cell) → List (Int × List Cell)
  | [] => []
  | row :: rows => (n, row) :: counted_from (n + 1) rows

/-- The rows of a bucket numbered as the engine counts them: `1, 2, ..., k`. -/
def counted {Cell : Type} (rows : List (List Cell)) : List (Int × List Cell) :=
  counted_from 1 rows

/-- How often an operation occurs among those performed on a bucket. -/
def constructions {V : CType → Type} : List (AggEvent V) → Nat
  | [] => 0
  | AggEvent.construct :: es => constructions es + 1
  | _ :: es => constructions es

/-- How often the step member was invoked. -/
def steps {V : CType → Type} : List (AggEvent V) → Nat
  | [] => 0
  | AggEvent.step :: es => steps es + 1
  | _ :: es => steps es

/-- How often the destructor was invoked. -/
def destructions {V : CType → Type} : List (AggEvent V) → Nat
  | [] => 0
  | AggEvent.destroy :: es => destructions es + 1
  | _ :: es => destructions es

/-- The results written on a bucket, in order. -/
def agg_results {V : CType → Type} : List (AggEvent V) → List (Option (Value V))
  | [] => []
  | AggEvent.result v :: es => v :: agg_results es
  | _ :: es => agg_results es

/-! ## Signature traits -/

/-- A type given to `function_traits`: a function type `R(Args...)` or a
function-pointer type `R(*)(Args...)`. -/
inductive FType where
  | fn (R : CType) (Args : List CType)
  | fn_ptr (R : CType) (Args : List CType)
  deriving DecidableEq, Repr

/-- Lines 41-61: the members of `function_traits<F>`. -/
structure function_traits where
  return_type : CType
  arity : Nat
  Args : List CType
  deriving DecidableEq, Repr

/-- Lines 44-61: the two specialisations; the one for `R(*)(Args...)`
inherits from the one for `R(Args...)`. -/
def function_traits.of : FType → function_traits
  | FType.fn R Args =>
    { return_type := R, arity := Args.length, Args := Args }
  | FType.fn_ptr R Args =>
    { return_type := R, arity := Args.length, Args := Args }

/-- Lines 55-60: `argument<N>::type`, which exists when the `static_assert`
`N < arity` holds. -/
def function_traits.argument (FT : function_traits) (N : Nat) : Option CType :=
  if N < FT.arity then FT.Args[N]? else none

/-! ## The engine's registration entry point -/

/-- The status `SQLITE_OK` of the engine. -/
def SQLITE_OK : Int := 0

/-- The text encoding flag `SQLITE_UTF8` of the engine. -/
def SQLITE_UTF8 : Int := 1

/-- The adapters of the header, as the function pointers handed to the
engine: a template name with its template arguments. -/
inductive Callback (V : CType → Type) : Type 1 where
  | functionx_impl (R : CType) (Ps : List CType)
  | step0_impl {R : CType} (T : Accumulator V [] R)
  | step1_impl {R P1 : CType} (T : Accumulator V [P1] R)
  | step2_impl {R P1 P2 : CType} (T : Accumulator V [P1, P2] R)
  | step3_impl {R P1 P2 P3 : CType} (T : Accumulator V [P1, P2, P3] R)
  | step4_impl {R P1 P2 P3 P4 : CType} (T : Accumulator V [P1, P2, P3, P4] R)
  | step5_impl {R P1 P2 P3 P4 P5 : CType} (T : Accumulator V [P1, P2, P3, P4, P5] R)
  | finishN_impl {Ps : List CType} {R : CType} (T : Accumulator V Ps R)

/-- The arguments of one call of `sqlite3_create_function`, which are also
what the engine keeps for a registered function. -/
structure FuncDef (V : CType → Type) : Type 1 where
  zFunctionName : String
  nArg : Nat
  eTextRep : Int
  pApp : Option Nat
  xFunc : Option (Callback V)
  xStep : Option (Callback V)
  xFinal : Option (Callback V)

/-- The engine behind a connection handle `sqlite3*`: the functions it has
registered, one for each pair of name and arity, and every call of the
registration entry point so far, in order. -/
structure sqlite3 (V : CType → Type) : Type 1 where
  funcs : List (FuncDef V)
  calls : List (FuncDef V)

/-- The engine's `sqlite3_create_function`. The engine decides the status;
`status` is its answer to this call. On `SQLITE_OK` the registration
replaces the one with the same name and arity, otherwise the registrations
stay as they were. -/
def sqlite3_create_function {V : CType → Type} (db : sqlite3 V) (status : Int)
    (zFunctionName : String) (nArg : Nat) (eTextRep : Int) (pApp : Option Nat)
    (xFunc xStep xFinal : Option (Callback V)) : Int × sqlite3 V :=
  let d : FuncDef V := ⟨zFunctionName, nArg, eTextRep, pApp, xFunc, xStep, xFinal⟩
  (status,
    { funcs :=
        if status = SQLITE_OK then
          d :: db.funcs.filter (fun e => !(e.zFunctionName == zFunctionName && e.nArg == nArg))
        else db.funcs,
      calls := db.calls ++ [d] })

/-- The registration the engine holds for a name and an arity. -/
def sqlite3.find {V : CType → Type} (db : sqlite3 V) (name : String) (nArg : Nat) :
    Option (FuncDef V) :=
  db.funcs.find? (fun e => e.zFunctionName == name && e.nArg == nArg)

/-- The code behind a scalar callback pointer. -/
def Callback.scalar {Cell : Type} {V : CType → Type}
    (cget : (T : CType) → Nat → List Cell → V T) :
    Callback V → Heap V → sqlite3_context → Nat → List Cell → Option (List (Event V))
  | Callback.functionx_impl R Ps => ext.functionx_impl cget R Ps
  | _ => fun _ _ _ _ => none

/-- The engine's evaluation of the scalar function `name` on the argument
cells `values`: it calls the `xFunc` registered for that name and that many
arguments, with a context whose user data is the registered `pApp`. -/
def sqlite3.invoke {Cell : Type} {V : CType → Type}
    (cget : (T : CType) → Nat → List Cell → V T)
    (db : sqlite3 V) (mem : Heap V) (name : String) (values : List Cell) :
    Option (List (Event V)) :=
  match db.find name values.length with
  | none => none
  | some d =>
    match d.xFunc with
    | none => none
    | some cb => cb.scalar cget mem ⟨d.pApp, 0⟩ values.length values

/-! ## The registries -/

/-- The lookup `m.find(k)` in a `std::map` keyed by name. -/
def map_find {α : Type} (m : List (String × α)) (k : String) : Option α :=
  (m.find? (fun e => e.1 == k)).map Prod.snd

/-- The assignment `m[k] = v` in a `std::map` keyed by name. -/
def map_assign {α : Type} (m : List (String × α)) (k : String) (v : α) : List (String × α) :=
  (k, v) :: m.filter (fun e => !(e.1 == k))

/-- Lines 184-272: `create_function_impl<N, F>()(db, fh, name)`. The primary
template is declared and not defined, so there is no adapter for `N > 5`;
a use of `argument<i>` whose `static_assert` fails gives none either. -/
def create_function_impl {V : CType → Type} (N : Nat) (F : FType)
    (db : sqlite3 V) (status : Int) (fh : Option Nat) (name : String) :
    Option (Int × sqlite3 V) :=
  let FT := function_traits.of F
  let R := FT.return_type
  match N with
  | 0 =>
    some (sqlite3_create_function db status name 0 SQLITE_UTF8 fh
      (some (Callback.functionx_impl R [])) none none)
  | 1 =>
    match FT.argument 0 with
    | some P1 =>
      some (sqlite3_create_function db status name 1 SQLITE_UTF8 fh
        (some (Callback.functionx_impl R [P1])) none none)
    | _ => none
  | 2 =>
    match FT.argument 0, FT.argument 1 with
    | some P1, some P2 =>
      some (sqlite3_create_function db status name 2 SQLITE_UTF8 fh
        (some (Callback.functionx_impl R [P1, P2])) none none)
    | _, _ => none
  | 3 =>
    match FT.argument 0, FT.argument 1, FT.argument 2 with
    | some P1, some P2, some P3 =>
      some (sqlite3_create_function db status name 3 SQLITE_UTF8 fh
        (some (Callback.functionx_impl R [P1, P2, P3])) none none)
    | _, _, _ => none
  | 4 =>
    match FT.argument 0, FT.argument 1, FT.argument 2, FT.argument 3 with
    | some P1, some P2, some P3, some P4 =>
      some (sqlite3_create_function db status name 4 SQLITE_UTF8 fh
        (some (Callback.functionx_impl R [P1, P2, P3, P4])) none none)
    | _, _, _, _ => none
  | 5 =>
    match FT.argument 0, FT.argument 1, FT.argument 2, FT.argument 3, FT.argument 4 with
    | some P1, some P2, some P3, some P4, some P5 =>
      some (sqlite3_create_function db status name 5 SQLITE_UTF8 fh
        (some (Callback.functionx_impl R [P1, P2, P3, P4, P5])) none none)
    | _, _, _, _, _ => none
  | _ + 6 => none

/-- The class `function` (lines 167-278): the engine `db_` points to and the
holder map `fh_`, each entry of which owns the holder at its address;
`mem` is the free store the holders live in. -/
structure function (V : CType → Type) : Type 1 where
  db_ : sqlite3 V
  fh_ : List (String × Nat)
  mem : Heap V

/-- Lines 177-180: `create<F>(name, h)`. The assignment to `fh_[name]`
allocates the new holder, then releases the holder the entry owned before;
`fh_[name].get()` is the address of the new one. -/
def function.create {V : CType → Type} (self : function V) (status : Int)
    (name : String) (F : Signature) (h : Fn V F.Args (V F.R)) : Option (Int × function V) :=
  let fresh := self.mem.new ⟨F, h⟩
  let mem := fresh.2.delete (map_find self.fh_ name)
  let fh := map_assign self.fh_ name fresh.1
  match create_function_impl (function_traits.of (FType.fn F.R F.Args)).arity
      (FType.fn F.R F.Args) self.db_ status (map_find fh name) name with
  | none => none
  | some r => some (r.1, { db_ := r.2, fh_ := fh, mem := mem })

/-- The class `aggregate` (lines 347-391): the engine `db_` points to. The
map `ah_` is not touched by the typed `create`. -/
structure aggregate (V : CType → Type) : Type 1 where
  db_ : sqlite3 V
  ah_ : List (String × (Nat × Nat))

/-- Lines 357-385: the six overloads `create<T, Ps...>(name)`, selected by
the number of template arguments after `T`. -/
def aggregate.create {V : CType → Type} {R : CType} (self : aggregate V) (status : Int)
    (name : String) : (Ps : List CType) → Accumulator V Ps R → Option (Int × aggregate V)
  | [], T =>
    let r := sqlite3_create_function self.db_ status name 0 SQLITE_UTF8 none none
      (some (Callback.step0_impl T)) (some (Callback.finishN_impl T))
    some (r.1, { self with db_ := r.2 })
  | [_], T =>
    let r := sqlite3_create_function self.db_ status name 1 SQLITE_UTF8 none none
      (some (Callback.step1_impl T)) (some (Callback.finishN_impl T))
    some (r.1, { self with db_ := r.2 })
  | [_, _], T =>
    let r := sqlite3_create_function self.db_ status name 2 SQLITE_UTF8 none none
      (some (Callback.step2_impl T)) (some (Callback.finishN_impl T))
    some (r.1, { self with db_ := r.2 })
  | [_, _, _], T =>
    let r := sqlite3_create_function self.db_ status name 3 SQLITE_UTF8 none none
      (some (Callback.step3_impl T)) (some (Callback.finishN_impl T))
    some (r.1, { self with db_ := r.2 })
  | [_, _, _, _], T =>
    let r := sqlite3_create_function self.db_ status name 4 SQLITE_UTF8 none none
      (some (Callback.step4_impl T)) (some (Callback.finishN_impl T))
    some (r.1, { self with db_ := r.2 })
  | [_, _, _, _, _], T =>
    let r := sqlite3_create_function self.db_ status name 5 SQLITE_UTF8 none none
      (some (Callback.step5_impl T)) (some (Callback.finishN_impl T))
    some (r.1, { self with db_ := r.2 })
  | _ :: _ :: _ :: _ :: _ :: _ :: _, _ => none

/-- One call `create<F>(name, h)` together with the status the engine
answers it with. -/
structure CreateOp (V : CType → Type) where
  name : String
  F : Signature
  h : Fn V F.Args (V F.R)
  status : Int

/-- A sequence of `create<F>` calls on one registry. -/
def function.run {V : CType → Type} (self : function V) : List (CreateOp V) → Option (function V)
  | [] => some self
  | op :: ops =>
    match self.create op.status op.name op.F op.h with
    | none => none
    | some r => function.run r.2 ops

/-- The holder made by the last call in `ops` that used `name`. -/
def last_holder {V : CType → Type} (name : String) (ops : List (CreateOp V)) :
    Option (Holder V) :=
  ((ops.filter (fun op => op.name == name)).getLast?).map (fun op => ⟨op.F, op.h⟩)

/-! ## Auxiliary definitions for the proofs -/

/-- The common body of the six step adapters, with the step call written
parameter by parameter. -/
def step_body {Cell : Type} {V : CType → Type} {Ps : List CType} {R : CType}
    (cget : (T : CType) → Nat → List Cell → V T) (T : Accumulator V Ps R)
    (ctx : sqlite3_context) (b : Bucket T.State V) (values : List Cell) : Bucket T.State V :=
  (if ctx.aggregate_count = 1 then b.placement_new T.ctor else b).call_step
    (fun s => positional cget values Ps (T.step s) 0)

/-- The registry after a successful instantiation of `create<F>`. -/
def function.created {V : CType → Type} (self : function V) (status : Int)
    (name : String) (F : Signature) (h : Fn V F.Args (V F.R)) : function V :=
  { db_ := (sqlite3_create_function self.db_ status name F.Args.length SQLITE_UTF8
              (some self.mem.next) (some (Callback.functionx_impl F.R F.Args)) none none).2,
    fh_ := map_assign self.fh_ name self.mem.next,
    mem := (self.mem.new ⟨F, h⟩).2.delete (map_find self.fh_ name) }

/-- The result of an aggregate `create` that passes `xStep` and `xFinal` to
the engine under arity `nArg`. -/
def aggregate.registered {V : CType → Type} (self : aggregate V) (status : Int)
    (name : String) (nArg : Nat) (xStep xFinal : Callback V) : Int × aggregate V :=
  (status,
    { self with
      db_ := (sqlite3_create_function self.db_ status name nArg SQLITE_UTF8 none none
        (some xStep) (some xFinal)).2 })

/-- The holder map is consistent with the calls `done` made so far: no name
and no address occurs twice, every address has been handed out, the names
are those used, and each entry owns the holder of the last call for its
name. -/
def function.Inv {V : CType → Type} (st : function V) (done : List (CreateOp V)) : Prop :=
  (st.fh_.map Prod.fst).Nodup
    ∧ (st.fh_.map Prod.snd).Nodup
    ∧ (∀ e ∈ st.fh_, e.2 < st.mem.next)
    ∧ (∀ e ∈ st.fh_, st.mem.deref (some e.2) = last_holder e.1 done)
    ∧ (∀ name, name ∈ st.fh_.map Prod.fst ↔ name ∈ done.map CreateOp.name)

/-! ## Concrete instances -/

/-- Every C++ type read as an integer. -/
abbrev IntV : CType → Type := fun _ => Int

/-- Integer cells: `get` returns the cell, and `0` beyond the last cell. -/
def int_get : (T : CType) → Nat → List Int → IntV T := fun _ idx values => values.getD idx 0

/-- The handler `int add2(int a, int b) { return a + b; }`. -/
def add2 : Fn IntV [CType.int, CType.int] (IntV CType.int) := fun (a b : Int) => a + b

/-- A free store whose address `0` holds `add2`. -/
def add2_heap : Heap IntV := ⟨[(0, ⟨⟨CType.int, [CType.int, CType.int]⟩, add2⟩)], 1⟩

/-- An accumulator whose `step()` increments a counter and whose `finish()`
returns it. -/
def counter : Accumulator IntV [] CType.int :=
  { State := Int, ctor := 0, step := fun s => s + 1, finish := fun s => s }

/-- A registry over an engine with no registrations, with an empty holder
map. -/
def empty_registry : function IntV := ⟨⟨[], []⟩, [], ⟨[], 0⟩⟩

/-- An aggregate registry over an engine with no registrations. -/
def empty_aggregate : aggregate IntV := ⟨⟨[], []⟩, []⟩

/-- The handler `int one() { return 1; }`. -/
def one : Fn IntV [] (IntV CType.int) := (1 : Int)

/-- The handler `int two() { return 2; }`. -/
def two : Fn IntV [] (IntV CType.int) := (2 : Int)

/-- The handler `int same(int a) { return a; }`. -/
def same : Fn IntV [CType.int] (IntV CType.int) := fun (a : Int) => a

/-- Two accepted `create` calls under the name `f`: first `int()`, then
`int(int)`. -/
def recreate_other_arity : List (CreateOp IntV) :=
  [⟨"f", ⟨CType.int, []⟩, one, SQLITE_OK⟩, ⟨"f", ⟨CType.int, [CType.int]⟩, same, SQLITE_OK⟩]

/-- Two `create` calls of `int()` under the name `g`, the second of which
the engine rejects with status `1`. -/
def recreate_rejected : List (CreateOp IntV) :=
  [⟨"g", ⟨CType.int, []⟩, one, SQLITE_OK⟩, ⟨"g", ⟨CType.int, []⟩, two, 1⟩]

/-- The six integer parameter types of a handler with one parameter too
many. -/
def six_ints : List CType :=
  [CType.int, CType.int, CType.int, CType.int, CType.int, CType.int]

/-- A handler with six parameters: their sum. -/
def sum6 : Fn IntV six_ints (IntV CType.int) := fun (a b c d e f : Int) => a + b + c + d + e + f

/-- An accumulator whose `step` takes six parameters and adds them up. -/
def adder6 : Accumulator IntV six_ints CType.int :=
  { State := Int, ctor := 0, step := fun s => fun (a b c d e f : Int) => s + a + b + c + d + e + f,
    finish := fun s => s }

/-- Three `create` calls, two of them under the name `f`. -/
def three_creates : List (CreateOp IntV) :=
  [⟨"f", ⟨CType.int, []⟩, one, SQLITE_OK⟩, ⟨"g", ⟨CType.int, [CType.int]⟩, same, 1⟩,
    ⟨"f", ⟨CType.int, []⟩, two, SQLITE_OK⟩]

/-! ## Scalar adapter: lemmas -/

theorem call_to_tuple_impl {Cell : Type} {V : CType → Type} {β : Type}
    (cget : (T : CType) → Nat → List Cell → V T) (c : context Cell) :
    ∀ (Ps : List CType) (f : Fn V Ps β) (index : Nat),
      call Ps f (to_tuple_impl cget index c Ps).1 = some (positional cget c.values_ Ps f index)
  | [], f, index => rfl
  | P :: Ps, f, index => by
    simp only [to_tuple_impl, call, positional, context.get, dite_true]
    exact call_to_tuple_impl cget c Ps _ (index + 1)

theorem to_tuple_impl_events {Cell : Type} {V : CType → Type}
    (cget : (T : CType) → Nat → List Cell → V T) (c : context Cell) :
    ∀ (Ps : List CType) (index : Nat),
      (to_tuple_impl cget index c Ps).2 = (List.range' index Ps.length).map Event.get
  | [], _ => rfl
  | P :: Ps, index => by
    simp only [to_tuple_impl, List.length_cons, List.range'_succ, List.map_cons]
    rw [to_tuple_impl_events cget c Ps (index + 1)]

theorem Apply_eq_call {V : CType → Type} {β : Type} (Ps : List CType) (f : Fn V Ps β)
    (t : List (Value V)) :
    ∀ (N : Nat) (a : List (Value V)), N ≤ t.length → Apply Ps f t N a = call Ps f (t.take N ++ a)
  | 0, a, _ => by simp [Apply]
  | N + 1, a, hN => by
    have hlt : N < t.length := hN
    have hget : t[N]? = some t[N] := List.getElem?_eq_getElem hlt
    simp only [Apply, hget]
    rw [Apply_eq_call Ps f t N (t[N] :: a) (Nat.le_of_lt hlt)]
    have htake : List.take (N + 1) t = List.take N t ++ [t[N]] := by
      rw [List.take_succ, hget]
      rfl
    rw [htake, List.append_assoc]
    rfl

theorem apply_eq_call {V : CType → Type} {β : Type} (Ps : List CType) (f : Fn V Ps β)
    (t : List (Value V)) : apply Ps f t = call Ps f t := by
  unfold apply
  rw [Apply_eq_call Ps f t t.length [] (Nat.le_refl _)]
  simp

theorem results_append {V : CType → Type} (xs ys : List (Event V)) :
    results (xs ++ ys) = results xs ++ results ys := by
  induction xs with
  | nil => rfl
  | cons e es ih => cases e <;> simp [results, ih]

theorem reads_append {V : CType → Type} (xs ys : List (Event V)) :
    reads (xs ++ ys) = reads xs ++ reads ys := by
  induction xs with
  | nil => rfl
  | cons e es ih => cases e <;> simp [reads, ih]

theorem results_map_get {V : CType → Type} (l : List Nat) :
    results (l.map (Event.get : Nat → Event V)) = [] := by
  induction l with
  | nil => rfl
  | cons i l ih => simpa [results] using ih

theorem reads_map_get {V : CType → Type} (l : List Nat) :
    reads (l.map (Event.get : Nat → Event V)) = l := by
  induction l with
  | nil => rfl
  | cons i l ih => simpa [reads] using ih

theorem Holder.cast_self {V : CType → Type} (F : Signature) (h : Fn V F.Args (V F.R)) :
    (Holder.mk F h).cast F = some h := by
  simp [Holder.cast]

theorem functionx_impl_eq {Cell : Type} {V : CType → Type}
    (cget : (T : CType) → Nat → List Cell → V T)
    (R : CType) (Ps : List CType) (f : Fn V Ps (V R)) (mem : Heap V)
    (ctx : sqlite3_context) (nargs : Nat) (values : List Cell)
    (hf : mem.deref (sqlite3_user_data ctx) = some ⟨⟨R, Ps⟩, f⟩) :
    functionx_impl cget R Ps mem ctx nargs values
      = some ((List.range Ps.length).map Event.get
          ++ [Event.result ⟨R, positional cget values Ps f 0⟩]) := by
  unfold functionx_impl
  simp only [hf, Option.some_bind]
  rw [Holder.cast_self ⟨R, Ps⟩ f]
  simp only [context.to_tuple, apply_eq_call]
  rw [call_to_tuple_impl cget ⟨ctx, nargs, values⟩ Ps f 0, to_tuple_impl_events]
  simp [List.range_eq_range']

theorem functionx_impl_results {Cell : Type} {V : CType → Type}
    (cget : (T : CType) → Nat → List Cell → V T)
    (R : CType) (Ps : List CType) (f : Fn V Ps (V R)) (mem : Heap V)
    (ctx : sqlite3_context) (nargs : Nat) (values : List Cell)
    (hf : mem.deref (sqlite3_user_data ctx) = some ⟨⟨R, Ps⟩, f⟩) :
    ∃ tr, functionx_impl cget R Ps mem ctx nargs values = some tr
      ∧ results tr = [⟨R, positional cget values Ps f 0⟩] := by
  refine ⟨_, functionx_impl_eq cget R Ps f mem ctx nargs values hf, ?_⟩
  rw [results_append, results_map_get]
  rfl

/-! ## Aggregate adapters: lemmas -/

theorem step_impl_eq_step_body {Cell : Type} {V : CType → Type} {R : CType}
    (cget : (T : CType) → Nat → List Cell → V T) :
    ∀ (Ps : List CType) (T : Accumulator V Ps R), Ps.length ≤ 5 →
      ∃ xStep, step_impl cget Ps T = some xStep ∧
        ∀ ctx b nargs values, xStep ctx b nargs values = step_body cget T ctx b values
  | [], T, _ => ⟨_, rfl, fun _ _ _ _ => rfl⟩
  | [_], T, _ => ⟨_, rfl, fun _ _ _ _ => rfl⟩
  | [_, _], T, _ => ⟨_, rfl, fun _ _ _ _ => rfl⟩
  | [_, _, _], T, _ => ⟨_, rfl, fun _ _ _ _ => rfl⟩
  | [_, _, _, _], T, _ => ⟨_, rfl, fun _ _ _ _ => rfl⟩
  | [_, _, _, _, _], T, _ => ⟨_, rfl, fun _ _ _ _ => rfl⟩
  | _ :: _ :: _ :: _ :: _ :: _ :: _, _, h => by simp at h

theorem step_body_first {Cell : Type} {V : CType → Type} {Ps : List CType} {R : CType}
    (cget : (T : CType) → Nat → List Cell → V T) (T : Accumulator V Ps R)
    (u : Option Nat) (b : Bucket T.State V) (values : List Cell) :
    step_body cget T ⟨u, 1⟩ b values
      = ⟨Slot.object (positional cget values Ps (T.step T.ctor) 0),
          b.log ++ [AggEvent.construct, AggEvent.step], b.ub⟩ := by
  simp [step_body, Bucket.placement_new, Bucket.call_step]

theorem step_body_later {Cell : Type} {V : CType → Type} {Ps : List CType} {R : CType}
    (cget : (T : CType) → Nat → List Cell → V T) (T : Accumulator V Ps R)
    (ctx : sqlite3_context) (hc : ctx.aggregate_count ≠ 1)
    (s : T.State) (log : List (AggEvent V)) (ub : Bool) (values : List Cell) :
    step_body cget T ctx ⟨Slot.object s, log, ub⟩ values
      = ⟨Slot.object (positional cget values Ps (T.step s) 0), log ++ [AggEvent.step], ub⟩ := by
  simp [step_body, hc, Bucket.call_step]

theorem foldl_step_body_later {Cell : Type} {V : CType → Type} {Ps : List CType} {R : CType}
    (cget : (T : CType) → Nat → List Cell → V T) (T : Accumulator V Ps R) :
    ∀ (rest : List (Int × List Cell)) (s : T.State) (log : List (AggEvent V)) (ub : Bool),
      (∀ p ∈ rest, p.1 ≠ 1) →
      rest.foldl (fun b row => step_body cget T ⟨none, row.1⟩ b row.2) ⟨Slot.object s, log, ub⟩
        = ⟨Slot.object (rest.foldl (fun s row => positional cget row.2 Ps (T.step s) 0) s),
            log ++ List.replicate rest.length AggEvent.step, ub⟩
  | [], s, log, ub, _ => by simp
  | p :: rest, s, log, ub, h => by
    have hp : p.1 ≠ 1 := h p (List.mem_cons_self _ _)
    have hrest : ∀ q ∈ rest, q.1 ≠ 1 := fun q hq => h q (List.mem_cons_of_mem _ hq)
    simp only [List.foldl_cons, List.length_cons]
    rw [step_body_later cget T ⟨none, p.1⟩ hp, foldl_step_body_later cget T rest _ _ _ hrest]
    simp [List.replicate_succ]

theorem finishN_impl_object {V : CType → Type} {Ps : List CType} {R : CType}
    (T : Accumulator V Ps R) (ctx : sqlite3_context) (s : T.State)
    (log : List (AggEvent V)) (ub : Bool) :
    finishN_impl T ctx ⟨Slot.object s, log, ub⟩
      = ⟨Slot.destroyed, log ++ [AggEvent.result (some ⟨R, T.finish s⟩), AggEvent.destroy], ub⟩ := by
  simp [finishN_impl, Bucket.result_finish, Bucket.destructor]

theorem bucket_steps_eq {Cell : Type} {V : CType → Type} {Ps : List CType} {R : CType}
    (cget : (T : CType) → Nat → List Cell → V T) (T : Accumulator V Ps R)
    (xStep : sqlite3_context → Bucket T.State V → Nat → List Cell → Bucket T.State V)
    (hx : ∀ ctx b nargs values, xStep ctx b nargs values = step_body cget T ctx b values)
    (first : List Cell) (rest : List (Int × List Cell)) (hrest : ∀ p ∈ rest, p.1 ≠ 1) :
    ((1, first) :: rest).foldl
        (fun b row => xStep ⟨none, row.1⟩ b row.2.length row.2) Bucket.fresh
      = ⟨Slot.object ((first :: rest.map Prod.snd).foldl
            (fun s row => positional cget row Ps (T.step s) 0) T.ctor),
          AggEvent.construct :: List.replicate (rest.length + 1) AggEvent.step, false⟩ := by
  have hfun : (fun (b : Bucket T.State V) (row : Int × List Cell) =>
      xStep ⟨none, row.1⟩ b row.2.length row.2)
      = (fun b row => step_body cget T ⟨none, row.1⟩ b row.2) := by
    funext b row
    exact hx _ _ _ _
  simp only [hfun, List.foldl_cons, Bucket.fresh]
  rw [step_body_first, foldl_step_body_later cget T rest _ _ _ hrest]
  simp [List.foldl_map, List.replicate_succ]

theorem bucket_lifetime_eq {Cell : Type} {V : CType → Type} {Ps : List CType} {R : CType}
    (cget : (T : CType) → Nat → List Cell → V T) (T : Accumulator V Ps R)
    (xStep : sqlite3_context → Bucket T.State V → Nat → List Cell → Bucket T.State V)
    (hx : ∀ ctx b nargs values, xStep ctx b nargs values = step_body cget T ctx b values)
    (first : List Cell) (rest : List (Int × List Cell)) (hrest : ∀ p ∈ rest, p.1 ≠ 1) :
    bucket_lifetime xStep (finishN_impl T) ((1, first) :: rest)
      = ⟨Slot.destroyed,
          AggEvent.construct :: (List.replicate (rest.length + 1) AggEvent.step
            ++ [AggEvent.result (some ⟨R, T.finish
                  (((first :: rest.map Prod.snd)).foldl
                    (fun s row => positional cget row Ps (T.step s) 0) T.ctor)⟩),
                AggEvent.destroy]),
          false⟩ := by
  have hfun : (fun (b : Bucket T.State V) (row : Int × List Cell) =>
      xStep ⟨none, row.1⟩ b row.2.length row.2)
      = (fun b row => step_body cget T ⟨none, row.1⟩ b row.2) := by
    funext b row
    exact hx _ _ _ _
  simp only [bucket_lifetime, hfun, List.foldl_cons, Bucket.fresh]
  rw [step_body_first, foldl_step_body_later cget T rest _ _ _ hrest, finishN_impl_object]
  simp [List.foldl_map, List.replicate_succ]

theorem constructions_append {V : CType → Type} (xs ys : List (AggEvent V)) :
    constructions (xs ++ ys) = constructions xs + constructions ys := by
  induction xs with
  | nil => simp [constructions]
  | cons e es ih => cases e <;> simp [constructions, ih, Nat.add_right_comm]

theorem steps_append {V : CType → Type} (xs ys : List (AggEvent V)) :
    steps (xs ++ ys) = steps xs + steps ys := by
  induction xs with
  | nil => simp [steps]
  | cons e es ih => cases e <;> simp [steps, ih, Nat.add_right_comm]

theorem destructions_append {V : CType → Type} (xs ys : List (AggEvent V)) :
    destructions (xs ++ ys) = destructions xs + destructions ys := by
  induction xs with
  | nil => simp [destructions]
  | cons e es ih => cases e <;> simp [destructions, ih, Nat.add_right_comm]

theorem agg_results_append {V : CType → Type} (xs ys : List (AggEvent V)) :
    agg_results (xs ++ ys) = agg_results xs ++ agg_results ys := by
  induction xs with
  | nil => simp [agg_results]
  | cons e es ih => cases e <;> simp [agg_results, ih]

theorem counts_replicate_step {V : CType → Type} (k : Nat) :
    constructions (List.replicate k (AggEvent.step : AggEvent V)) = 0
      ∧ steps (List.replicate k (AggEvent.step : AggEvent V)) = k
      ∧ destructions (List.replicate k (AggEvent.step : AggEvent V)) = 0
      ∧ agg_results (List.replicate k (AggEvent.step : AggEvent V)) = [] := by
  induction k with
  | zero => simp [constructions, steps, destructions, agg_results]
  | succ k ih =>
    obtain ⟨h1, h2, h3, h4⟩ := ih
    simp [List.replicate_succ, constructions, steps, destructions, agg_results, h1, h2, h3, h4]

theorem lifecycle_counts {V : CType → Type} (k : Nat) (v : Option (Value V)) :
    constructions (AggEvent.construct :: (List.replicate k AggEvent.step
        ++ [AggEvent.result v, AggEvent.destroy])) = 1
      ∧ steps (AggEvent.construct :: (List.replicate k AggEvent.step
        ++ [AggEvent.result v, AggEvent.destroy])) = k
      ∧ destructions (AggEvent.construct :: (List.replicate k AggEvent.step
        ++ [AggEvent.result v, AggEvent.destroy])) = 1
      ∧ agg_results (AggEvent.construct :: (List.replicate k AggEvent.step
        ++ [AggEvent.result v, AggEvent.destroy])) = [v] := by
  obtain ⟨c1, c2, c3, c4⟩ := counts_replicate_step (V := V) k
  refine ⟨?_, ?_, ?_, ?_⟩
  · show constructions (List.replicate k AggEvent.step
        ++ [AggEvent.result v, AggEvent.destroy]) + 1 = 1
    rw [constructions_append, c1]
    rfl
  · show steps (List.replicate k AggEvent.step
        ++ [AggEvent.result v, AggEvent.destroy]) = k
    rw [steps_append, c2]
    rfl
  · show destructions (List.replicate k AggEvent.step
        ++ [AggEvent.result v, AggEvent.destroy]) = 1
    rw [destructions_append, c3]
    rfl
  · show agg_results (List.replicate k AggEvent.step
        ++ [AggEvent.result v, AggEvent.destroy]) = [v]
    rw [agg_results_append, c4]
    rfl

/-! ## Registries: lemmas -/

theorem map_find_map_assign_self {α : Type} (m : List (String × α)) (k : String) (v : α) :
    map_find (map_assign m k v) k = some v := by
  simp [map_find, map_assign]

theorem create_function_impl_fn {V : CType → Type} (R : CType) :
    ∀ (Args : List CType), Args.length ≤ 5 →
      ∀ (db : sqlite3 V) (status : Int) (fh : Option Nat) (name : String),
        create_function_impl Args.length (FType.fn R Args) db status fh name
          = some (sqlite3_create_function db status name Args.length SQLITE_UTF8 fh
              (some (Callback.functionx_impl R Args)) none none)
  | [], _ => fun _ _ _ _ => rfl
  | [_], _ => fun _ _ _ _ => rfl
  | [_, _], _ => fun _ _ _ _ => rfl
  | [_, _, _], _ => fun _ _ _ _ => rfl
  | [_, _, _, _], _ => fun _ _ _ _ => rfl
  | [_, _, _, _, _], _ => fun _ _ _ _ => rfl
  | _ :: _ :: _ :: _ :: _ :: _ :: _, h => by simp at h

theorem create_function_impl_none {V : CType → Type} (N : Nat) (hN : 5 < N) (F : FType)
    (db : sqlite3 V) (status : Int) (fh : Option Nat) (name : String) :
    create_function_impl N F db status fh name = none := by
  obtain ⟨k, rfl⟩ : ∃ k, N = k + 6 := ⟨N - 6, by omega⟩
  rfl

theorem function.create_eq_created {V : CType → Type} (self : function V) (status : Int)
    (name : String) (F : Signature) (h : Fn V F.Args (V F.R)) (hn : F.Args.length ≤ 5) :
    self.create status name F h = some (status, self.created status name F h) := by
  unfold function.create
  simp only [function_traits.of, map_find_map_assign_self]
  rw [create_function_impl_fn F.R F.Args hn]
  rfl

theorem function.create_none {V : CType → Type} (self : function V) (status : Int)
    (name : String) (F : Signature) (h : Fn V F.Args (V F.R)) (hn : 5 < F.Args.length) :
    self.create status name F h = none := by
  unfold function.create
  simp only [function_traits.of]
  rw [create_function_impl_none F.Args.length hn]

theorem aggregate.create_eq_call {V : CType → Type} {R : CType} (self : aggregate V) (status : Int)
    (name : String) :
    ∀ (Ps : List CType) (T : Accumulator V Ps R), Ps.length ≤ 5 →
      ∃ xStep, self.create status name Ps T
        = some (status, { self with db_ :=
            { funcs := (sqlite3_create_function self.db_ status name Ps.length SQLITE_UTF8
                  none none (some xStep) (some (Callback.finishN_impl T))).2.funcs,
              calls := self.db_.calls ++ [⟨name, Ps.length, SQLITE_UTF8, none, none,
                  some xStep, some (Callback.finishN_impl T)⟩] } })
  | [], T, _ => ⟨Callback.step0_impl T, rfl⟩
  | [_], T, _ => ⟨Callback.step1_impl T, rfl⟩
  | [_, _], T, _ => ⟨Callback.step2_impl T, rfl⟩
  | [_, _, _], T, _ => ⟨Callback.step3_impl T, rfl⟩
  | [_, _, _, _], T, _ => ⟨Callback.step4_impl T, rfl⟩
  | [_, _, _, _, _], T, _ => ⟨Callback.step5_impl T, rfl⟩
  | _ :: _ :: _ :: _ :: _ :: _ :: _, _, h => by simp at h

theorem sqlite3_find_create_ok {V : CType → Type} (db : sqlite3 V)
    (name : String) (nArg : Nat) (eTextRep : Int) (pApp : Option Nat)
    (xFunc xStep xFinal : Option (Callback V)) :
    (sqlite3_create_function db SQLITE_OK name nArg eTextRep pApp xFunc xStep xFinal).2.find
        name nArg
      = some ⟨name, nArg, eTextRep, pApp, xFunc, xStep, xFinal⟩ := by
  simp [sqlite3.find, sqlite3_create_function]

theorem find?_filter_ne {β : Type} (l : List (Nat × β)) (a p : Nat) (hpa : p ≠ a) :
    (l.filter (fun e => !(e.1 == a))).find? (fun e => e.1 == p)
      = l.find? (fun e => e.1 == p) := by
  induction l with
  | nil => rfl
  | cons e l ih =>
    by_cases hea : e.1 = a
    · have hep : (e.1 == p) = false := by
        rw [beq_eq_false_iff_ne]
        exact fun h => hpa (h ▸ hea)
      have h1 : (e.1 == a) = true := by simp [hea]
      simp only [List.filter_cons, List.find?_cons, h1, hep, Bool.not_true]
      exact ih
    · have h1 : (e.1 == a) = false := by simp [hea]
      simp only [List.filter_cons, List.find?_cons, h1, Bool.not_false, if_true, ih]

theorem Heap.deref_delete_ne {V : CType → Type} (m : Heap V) (q : Option Nat) (p : Nat)
    (hq : q ≠ some p) : (m.delete q).deref (some p) = m.deref (some p) := by
  cases q with
  | none => rfl
  | some a =>
    have hpa : p ≠ a := fun h => hq (by rw [h])
    simp only [Heap.delete, Heap.deref]
    rw [find?_filter_ne m.live a p hpa]

theorem Heap.deref_new_self {V : CType → Type} (m : Heap V) (o : Holder V) :
    (m.new o).2.deref (some m.next) = some o := by
  simp [Heap.new, Heap.deref]

theorem Heap.deref_new_ne {V : CType → Type} (m : Heap V) (o : Holder V) (p : Nat)
    (hp : p ≠ m.next) : (m.new o).2.deref (some p) = m.deref (some p) := by
  have hp2 : ¬ m.next = p := fun h => hp h.symm
  simp [Heap.new, Heap.deref, List.find?_cons, hp2]

/-! ## The holder map under a sequence of `create` calls -/

theorem last_holder_append_singleton {V : CType → Type} (name : String)
    (done : List (CreateOp V)) (op : CreateOp V) :
    last_holder name (done ++ [op])
      = if op.name = name then some ⟨op.F, op.h⟩ else last_holder name done := by
  unfold last_holder
  by_cases hn : op.name = name
  · simp [List.filter_append, List.filter_cons, hn]
  · simp [List.filter_append, List.filter_cons, hn]

theorem last_holder_split {V : CType → Type} (name : String) :
    ∀ (ops : List (CreateOp V)), name ∈ ops.map CreateOp.name →
      ∃ pre op post, ops = pre ++ op :: post ∧ op.name = name
        ∧ (∀ o ∈ post, o.name ≠ name) ∧ last_holder name ops = some ⟨op.F, op.h⟩ := by
  intro ops
  induction ops using List.reverseRecOn with
  | nil => intro h; simp at h
  | append_singleton done o ih =>
    intro hmem
    by_cases hn : o.name = name
    · refine ⟨done, o, [], rfl, hn, by simp, ?_⟩
      rw [last_holder_append_singleton, if_pos hn]
    · have hdone : name ∈ done.map CreateOp.name := by
        simp only [List.map_append, List.mem_append, List.map_cons, List.map_nil,
          List.mem_singleton] at hmem
        rcases hmem with h | h
        · exact h
        · exact absurd h.symm hn
      obtain ⟨pre, op, post, hsplit, hop, hpost, hlast⟩ := ih hdone
      refine ⟨pre, op, post ++ [o], by simp [hsplit], hop, ?_, ?_⟩
      · intro x hx
        rcases List.mem_append.mp hx with h | h
        · exact hpost x h
        · rw [List.mem_singleton.mp h]; exact hn
      · rw [last_holder_append_singleton, if_neg hn, hlast]

theorem map_find_some_mem {α : Type} (m : List (String × α)) (k : String) (v : α)
    (h : map_find m k = some v) : (k, v) ∈ m := by
  unfold map_find at h
  cases hf : m.find? (fun e => e.1 == k) with
  | none => simp [hf] at h
  | some e =>
    rw [hf] at h
    have hv : e.2 = v := by simpa using h
    have hk : e.1 = k := by simpa using List.find?_some hf
    have hmem : e ∈ m := List.mem_of_find?_eq_some hf
    have he : e = (k, v) := Prod.ext hk hv
    rw [← he]; exact hmem

theorem map_find_of_mem_keys {α : Type} (m : List (String × α)) (k : String)
    (h : k ∈ m.map Prod.fst) : ∃ v, map_find m k = some v := by
  cases hf : m.find? (fun e => e.1 == k) with
  | none =>
    rw [List.find?_eq_none] at hf
    obtain ⟨e, he, hek⟩ := List.mem_map.mp h
    exact absurd (by simp [hek]) (hf e he)
  | some e => exact ⟨e.2, by simp [map_find, hf]⟩

theorem function.Inv_created {V : CType → Type} (st : function V) (done : List (CreateOp V))
    (op : CreateOp V) (hinv : st.Inv done) :
    (st.created op.status op.name op.F op.h).Inv (done ++ [op]) := by
  obtain ⟨hkeys, haddrs, hlt, hderef, hnames⟩ := hinv
  have hsub : (st.fh_.filter (fun e => !(e.1 == op.name))).Sublist st.fh_ :=
    List.filter_sublist _
  have hmemf : ∀ e ∈ st.fh_.filter (fun e => !(e.1 == op.name)), e ∈ st.fh_ ∧ e.1 ≠ op.name := by
    intro e he
    have := List.mem_filter.mp he
    exact ⟨this.1, by simpa using this.2⟩
  have hq : map_find st.fh_ op.name ≠ some st.mem.next := by
    intro h
    have := hlt _ (map_find_some_mem _ _ _ h)
    exact Nat.lt_irrefl _ this
  refine ⟨?_, ?_, ?_, ?_, ?_⟩
  · -- names
    simp only [function.created, map_assign, List.map_cons, List.nodup_cons]
    refine ⟨?_, (hsub.map Prod.fst).nodup hkeys⟩
    intro hin
    obtain ⟨e, he, hek⟩ := List.mem_map.mp hin
    exact (hmemf e he).2 hek
  · -- addresses
    simp only [function.created, map_assign, List.map_cons, List.nodup_cons]
    refine ⟨?_, (hsub.map Prod.snd).nodup haddrs⟩
    intro hin
    obtain ⟨e, he, hek⟩ := List.mem_map.mp hin
    have := hlt e (hmemf e he).1
    omega
  · -- addresses handed out
    intro e he
    simp only [function.created, map_assign, List.mem_cons] at he
    have hnext : (st.created op.status op.name op.F op.h).mem.next = st.mem.next + 1 := by
      simp only [function.created, Heap.new]
      cases map_find st.fh_ op.name <;> rfl
    rw [hnext]
    rcases he with he | he
    · rw [he]; exact Nat.lt_succ_self _
    · exact Nat.lt_succ_of_lt (hlt e (hmemf e he).1)
  · -- holders
    intro e he
    simp only [function.created, map_assign, List.mem_cons] at he
    rw [last_holder_append_singleton]
    show ((st.mem.new ⟨op.F, op.h⟩).2.delete (map_find st.fh_ op.name)).deref (some e.2) = _
    rcases he with he | he
    · subst he
      rw [if_pos rfl, Heap.deref_delete_ne _ _ _ hq, Heap.deref_new_self]
    · obtain ⟨hmem, hne⟩ := hmemf e he
      have hne2 : ¬ op.name = e.1 := fun h => hne h.symm
      rw [if_neg hne2]
      have hq2 : map_find st.fh_ op.name ≠ some e.2 := by
        intro h
        have hmem2 := map_find_some_mem _ _ _ h
        have := List.inj_on_of_nodup_map haddrs hmem2 hmem rfl
        exact hne (by rw [← this])
      rw [Heap.deref_delete_ne _ _ _ hq2,
        Heap.deref_new_ne _ _ _ (Nat.ne_of_lt (hlt e hmem)), hderef e hmem]
  · -- names used
    intro name
    simp only [function.created, map_assign, List.map_cons, List.mem_cons, List.map_append,
      List.mem_append, List.map_nil, List.not_mem_nil, or_false]
    constructor
    · rintro (h | h)
      · exact Or.inr h
      · obtain ⟨e, he, hek⟩ := List.mem_map.mp h
        exact Or.inl ((hnames name).mp (List.mem_map.mpr ⟨e, (hmemf e he).1, hek⟩))
    · rintro (h | h)
      · by_cases hn : name = op.name
        · exact Or.inl hn
        · obtain ⟨e, he, hek⟩ := List.mem_map.mp ((hnames name).mpr h)
          refine Or.inr (List.mem_map.mpr ⟨e, List.mem_filter.mpr ⟨he, ?_⟩, hek⟩)
          simp [hek, hn]
      · exact Or.inl h

theorem function.run_Inv {V : CType → Type} :
    ∀ (ops : List (CreateOp V)) (st : function V) (done : List (CreateOp V)),
      st.Inv done → (∀ op ∈ ops, op.F.Args.length ≤ 5) →
      ∃ final, st.run ops = some final ∧ final.Inv (done ++ ops)
  | [], st, done, hinv, _ => ⟨st, rfl, by simpa using hinv⟩
  | op :: ops, st, done, hinv, hlen => by
    have hop : op.F.Args.length ≤ 5 := hlen op (List.mem_cons_self _ _)
    have hops : ∀ o ∈ ops, o.F.Args.length ≤ 5 := fun o ho => hlen o (List.mem_cons_of_mem _ ho)
    obtain ⟨final, hrun, hfinal⟩ :=
      function.run_Inv ops _ (done ++ [op]) (function.Inv_created st done op hinv) hops
    refine ⟨final, ?_, by simpa using hfinal⟩
    simp only [function.run, function.create_eq_created st op.status op.name op.F op.h hop]
    exact hrun

theorem counted_from_fst {Cell : Type} :
    ∀ (rows : List (List Cell)) (n : Int), ∀ p ∈ counted_from n rows, n ≤ p.1
  | [], _, p, hp => by simp [counted_from] at hp
  | row :: rows, n, p, hp => by
    simp only [counted_from, List.mem_cons] at hp
    rcases hp with hp | hp
    · rw [hp]
    · have := counted_from_fst rows (n + 1) p hp
      omega

theorem counted_from_snd {Cell : Type} :
    ∀ (rows : List (List Cell)) (n : Int), (counted_from n rows).map Prod.snd = rows
  | [], _ => rfl
  | row :: rows, n => by
    simp only [counted_from, List.map_cons]
    rw [counted_from_snd rows (n + 1)]

theorem positional_unfold {Cell : Type} {V : CType → Type} {β : Type}
    (cget : (T : CType) → Nat → List Cell → V T) (values : List Cell) :
    (∀ (f : Fn V [] β), positional cget values [] f 0 = f)
      ∧ (∀ (P1 : CType) (f : Fn V [P1] β),
          positional cget values [P1] f 0 = f (cget P1 0 values))
      ∧ (∀ (P1 P2 : CType) (f : Fn V [P1, P2] β),
          positional cget values [P1, P2] f 0 = f (cget P1 0 values) (cget P2 1 values))
      ∧ (∀ (P1 P2 P3 : CType) (f : Fn V [P1, P2, P3] β),
          positional cget values [P1, P2, P3] f 0
            = f (cget P1 0 values) (cget P2 1 values) (cget P3 2 values))
      ∧ (∀ (P1 P2 P3 P4 : CType) (f : Fn V [P1, P2, P3, P4] β),
          positional cget values [P1, P2, P3, P4] f 0
            = f (cget P1 0 values) (cget P2 1 values) (cget P3 2 values) (cget P4 3 values))
      ∧ (∀ (P1 P2 P3 P4 P5 : CType) (f : Fn V [P1, P2, P3, P4, P5] β),
          positional cget values [P1, P2, P3, P4, P5] f 0
            = f (cget P1 0 values) (cget P2 1 values) (cget P3 2 values) (cget P4 3 values)
                (cget P5 4 values)) :=
  ⟨fun _ => rfl, fun _ _ => rfl, fun _ _ _ => rfl, fun _ _ _ _ => rfl,
    fun _ _ _ _ _ => rfl, fun _ _ _ _ _ _ => rfl⟩

/-! ## The claims -/

/-- C1: one call of the scalar adapter `functionx_impl<R, Ps...>` whose user
data points to the stored callable `f` writes exactly one result, and that
result is `f(get<P1>(0), ..., get<Pn>(n-1))`, for every number of parameters
(`positional` is unfolded for 0 to 5 parameters in `positional_unfold`). -/
theorem functionx_impl_writes_call_result {Cell : Type} {V : CType → Type}
    (cget : (T : CType) → Nat → List Cell → V T)
    (R : CType) (Ps : List CType) (f : Fn V Ps (V R)) (mem : Heap V)
    (ctx : sqlite3_context) (nargs : Nat) (values : List Cell)
    (hf : mem.deref (sqlite3_user_data ctx) = some ⟨⟨R, Ps⟩, f⟩) :
    ∃ tr, functionx_impl cget R Ps mem ctx nargs values = some tr
      ∧ results tr = [⟨R, positional cget values Ps f 0⟩] :=
  functionx_impl_results cget R Ps f mem ctx nargs values hf

/-- C1, scenario A: `add2` on the cells `(3, 4)` writes the one result `7`. -/
theorem functionx_impl_writes_call_result_witness :
    add2_heap.deref (sqlite3_user_data ⟨some 0, 0⟩)
        = some ⟨⟨CType.int, [CType.int, CType.int]⟩, add2⟩
      ∧ ∃ tr, functionx_impl int_get CType.int [CType.int, CType.int] add2_heap
            ⟨some 0, 0⟩ 2 [3, 4] = some tr
          ∧ results tr = [⟨CType.int, (7 : Int)⟩] :=
  ⟨rfl, functionx_impl_writes_call_result int_get CType.int [CType.int, CType.int] add2
    add2_heap ⟨some 0, 0⟩ 2 [3, 4] rfl⟩

/-- C5: `to_tuple<Ts...>` calls `get` on the cell indices `0, 1, ..., n-1`,
each once and in that order, and does nothing else. -/
theorem to_tuple_reads_in_index_order {Cell : Type} {V : CType → Type}
    (cget : (T : CType) → Nat → List Cell → V T) (c : context Cell) (Ts : List CType) :
    ((c.to_tuple cget Ts).2 : List (Event V)) = (List.range Ts.length).map Event.get
      ∧ reads ((c.to_tuple cget Ts).2 : List (Event V)) = List.range Ts.length := by
  have h : ((c.to_tuple cget Ts).2 : List (Event V)) = (List.range Ts.length).map Event.get := by
    simp [context.to_tuple, to_tuple_impl_events, List.range_eq_range']
  exact ⟨h, by rw [h, reads_map_get]⟩

/-- C2: for 0 to 5 parameters, after step-adapter calls on `k >= 1` rows of
one bucket, counted `1, 2, ..., k` by the engine, and one finish-adapter call,
the one result written is `finish` of the state obtained by folding `step`
over the rows in call order from the default-constructed accumulator, each
step receiving `(get<P1>(0), ..., get<Pn>(n-1))` of its row. -/
theorem aggregate_result_is_fold {Cell : Type} {V : CType → Type}
    (cget : (T : CType) → Nat → List Cell → V T)
    (Ps : List CType) (R : CType) (T : Accumulator V Ps R) (rows : List (List Cell))
    (hn : Ps.length ≤ 5) (hk : 1 ≤ rows.length) :
    ∃ xStep, step_impl cget Ps T = some xStep
      ∧ (bucket_lifetime xStep (finishN_impl T) (counted rows)).ub = false
      ∧ agg_results (bucket_lifetime xStep (finishN_impl T) (counted rows)).log
          = [some ⟨R, T.finish
              (rows.foldl (fun s row => positional cget row Ps (T.step s) 0) T.ctor)⟩] := by
  obtain ⟨xStep, hsel, hx⟩ := step_impl_eq_step_body cget Ps T hn
  refine ⟨xStep, hsel, ?_⟩
  cases rows with
  | nil => simp at hk
  | cons first rest =>
    have hlater : ∀ p ∈ counted_from (1 + 1) rest, p.1 ≠ 1 := by
      intro p hp
      have := counted_from_fst rest (1 + 1) p hp
      omega
    have hrows : counted (first :: rest) = (1, first) :: counted_from (1 + 1) rest := rfl
    rw [hrows, bucket_lifetime_eq cget T xStep hx first _ hlater, counted_from_snd]
    exact ⟨rfl, (lifecycle_counts _ _).2.2.2⟩

/-- C2, scenario B: the counter aggregate stepped on five rows writes `5`. -/
theorem aggregate_result_is_fold_witness :
    ([] : List CType).length ≤ 5 ∧ 1 ≤ ([[], [], [], [], []] : List (List Int)).length
      ∧ ∃ xStep, step_impl int_get [] counter = some xStep
        ∧ (bucket_lifetime xStep (finishN_impl counter) (counted [[], [], [], [], []])).ub
            = false
        ∧ agg_results
            (bucket_lifetime xStep (finishN_impl counter) (counted [[], [], [], [], []])).log
            = [some ⟨CType.int, (5 : Int)⟩] :=
  ⟨by decide, by decide,
    aggregate_result_is_fold int_get [] CType.int counter [[], [], [], [], []]
      (by decide) (by decide)⟩

/-- C3: for 0 to 5 parameters, when `aggregate_count()` is 1 in the first
step-adapter call on a bucket and greater than 1 (and non-decreasing) in the
later ones: the first call constructs the accumulator and then applies the
step operation to it; after the `k` step calls the slot holds the
accumulator, constructed once and stepped over the `k` rows in call order;
the finish call writes the finish value of that accumulator as the result
and then destroys it, leaving the slot without an object; so the lifetime has
one construction, `k` steps and one destruction, in this order, and no
operation is applied to a slot without a constructed accumulator. -/
theorem aggregate_lifecycle {Cell : Type} {V : CType → Type}
    (cget : (T : CType) → Nat → List Cell → V T)
    (Ps : List CType) (R : CType) (T : Accumulator V Ps R)
    (first : List Cell) (rest : List (Int × List Cell))
    (hn : Ps.length ≤ 5) (hlater : ∀ p ∈ rest, 1 < p.1)
    (_hmono : List.Chain' (fun a b : Int => a ≤ b) (1 :: rest.map Prod.fst)) :
    ∃ xStep, step_impl cget Ps T = some xStep
      ∧ xStep ⟨none, 1⟩ Bucket.fresh first.length first
          = ⟨Slot.object (positional cget first Ps (T.step T.ctor) 0),
              [AggEvent.construct, AggEvent.step], false⟩
      ∧ ((1, first) :: rest).foldl
            (fun b row => xStep ⟨none, row.1⟩ b row.2.length row.2) Bucket.fresh
          = ⟨Slot.object ((first :: rest.map Prod.snd).foldl
                (fun s row => positional cget row Ps (T.step s) 0) T.ctor),
              AggEvent.construct :: List.replicate (rest.length + 1) AggEvent.step, false⟩
      ∧ bucket_lifetime xStep (finishN_impl T) ((1, first) :: rest)
          = ⟨Slot.destroyed,
              AggEvent.construct :: (List.replicate (rest.length + 1) AggEvent.step
                ++ [AggEvent.result (some ⟨R, T.finish
                      ((first :: rest.map Prod.snd).foldl
                        (fun s row => positional cget row Ps (T.step s) 0) T.ctor)⟩),
                    AggEvent.destroy]),
              false⟩
      ∧ constructions (bucket_lifetime xStep (finishN_impl T) ((1, first) :: rest)).log = 1
      ∧ steps (bucket_lifetime xStep (finishN_impl T) ((1, first) :: rest)).log
          = rest.length + 1
      ∧ destructions (bucket_lifetime xStep (finishN_impl T) ((1, first) :: rest)).log
          = 1 := by
  obtain ⟨xStep, hsel, hx⟩ := step_impl_eq_step_body cget Ps T hn
  have hne : ∀ p ∈ rest, p.1 ≠ 1 := fun p hp => by
    have := hlater p hp
    omega
  have hlife := bucket_lifetime_eq cget T xStep hx first rest hne
  obtain ⟨c1, c2, c3, _⟩ := lifecycle_counts (V := V) (rest.length + 1)
    (some ⟨R, T.finish ((first :: rest.map Prod.snd).foldl
      (fun s row => positional cget row Ps (T.step s) 0) T.ctor)⟩)
  refine ⟨xStep, hsel, ?_, ?_, hlife, ?_, ?_, ?_⟩
  · rw [hx, step_body_first]
    rfl
  · exact bucket_steps_eq cget T xStep hx first rest hne
  · rw [hlife]; exact c1
  · rw [hlife]; exact c2
  · rw [hlife]; exact c3

/-- C3 on the counter aggregate with the counts `1, 2, 2`: the slot holds
`3` after the three steps, the finish call writes `3` and leaves the slot
destroyed. -/
theorem aggregate_lifecycle_witness :
    ∃ xStep, step_impl int_get [] counter = some xStep
      ∧ xStep ⟨none, 1⟩ Bucket.fresh 0 []
          = ⟨Slot.object (1 : Int), [AggEvent.construct, AggEvent.step], false⟩
      ∧ ([(1, []), (2, []), (2, [])] : List (Int × List Int)).foldl
            (fun b row => xStep ⟨none, row.1⟩ b row.2.length row.2) Bucket.fresh
          = ⟨Slot.object (3 : Int),
              [AggEvent.construct, AggEvent.step, AggEvent.step, AggEvent.step], false⟩
      ∧ bucket_lifetime xStep (finishN_impl counter) [(1, []), (2, []), (2, [])]
          = ⟨Slot.destroyed,
              [AggEvent.construct, AggEvent.step, AggEvent.step, AggEvent.step,
                AggEvent.result (some ⟨CType.int, (3 : Int)⟩), AggEvent.destroy],
              false⟩
      ∧ constructions
          (bucket_lifetime xStep (finishN_impl counter) [(1, []), (2, []), (2, [])]).log = 1
      ∧ steps
          (bucket_lifetime xStep (finishN_impl counter) [(1, []), (2, []), (2, [])]).log = 3
      ∧ destructions
          (bucket_lifetime xStep (finishN_impl counter) [(1, []), (2, []), (2, [])]).log
          = 1 :=
  aggregate_lifecycle int_get [] CType.int counter [] [(2, []), (2, [])]
    (by decide) (by decide) (by simp)

/-- C4, at `k = 0`: a finish-adapter call on a bucket that saw no step call
performs no construction and one destruction, and applies `finish` and the
destructor to a slot in which no accumulator was constructed. -/
theorem finish_without_step_constructs_nothing {Cell : Type} {V : CType → Type}
    {Ps : List CType} {R : CType} (T : Accumulator V Ps R)
    (xStep : sqlite3_context → Bucket T.State V → Nat → List Cell → Bucket T.State V) :
    (bucket_lifetime xStep (finishN_impl T) []).log
        = [AggEvent.result none, AggEvent.destroy]
      ∧ constructions (bucket_lifetime xStep (finishN_impl T) []).log = 0
      ∧ destructions (bucket_lifetime xStep (finishN_impl T) []).log = 1
      ∧ (bucket_lifetime xStep (finishN_impl T) []).ub = true :=
  ⟨rfl, rfl, rfl, rfl⟩

/-- C6: after any sequence of `create<F>` calls (0 to 5 parameters each) on
a registry whose holder map starts empty, the map entry of every name used
owns the holder made from the handler of the last call in the sequence that
used that name (all calls after it use other names), no name has two
entries, and the names with an entry are exactly the names used. -/
theorem fh_holds_last_handler {V : CType → Type} (st : function V)
    (ops : List (CreateOp V)) (h0 : st.fh_ = [])
    (hn : ∀ op ∈ ops, op.F.Args.length ≤ 5) :
    ∃ final, st.run ops = some final
      ∧ (∀ name ∈ ops.map CreateOp.name,
          ∃ pre op post p, ops = pre ++ op :: post ∧ op.name = name
            ∧ (∀ o ∈ post, o.name ≠ name)
            ∧ map_find final.fh_ name = some p
            ∧ final.mem.deref (some p) = some ⟨op.F, op.h⟩)
      ∧ (final.fh_.map Prod.fst).Nodup
      ∧ (∀ name, name ∈ final.fh_.map Prod.fst ↔ name ∈ ops.map CreateOp.name) := by
  have hinit : st.Inv [] := by
    simp [function.Inv, h0]
  obtain ⟨final, hrun, hkeys, _, _, hderef, hnames⟩ := function.run_Inv ops st [] hinit hn
  simp only [List.nil_append] at hderef hnames
  refine ⟨final, hrun, ?_, hkeys, hnames⟩
  intro name hname
  obtain ⟨pre, op, post, hsplit, hop, hpost, hlast⟩ := last_holder_split name ops hname
  obtain ⟨p, hp⟩ := map_find_of_mem_keys final.fh_ name ((hnames name).mpr hname)
  refine ⟨pre, op, post, p, hsplit, hop, hpost, hp, ?_⟩
  rw [← hlast]
  exact hderef (name, p) (map_find_some_mem _ _ _ hp)

/-- C6 on three calls, two of them under the name `f`: the entry of `f`
owns the holder of the third call. -/
theorem fh_holds_last_handler_witness :
    empty_registry.fh_ = [] ∧ (∀ op ∈ three_creates, op.F.Args.length ≤ 5)
      ∧ ∃ final, empty_registry.run three_creates = some final
        ∧ (∀ name ∈ three_creates.map CreateOp.name,
            ∃ pre op post p, three_creates = pre ++ op :: post ∧ op.name = name
              ∧ (∀ o ∈ post, o.name ≠ name)
              ∧ map_find final.fh_ name = some p
              ∧ final.mem.deref (some p) = some ⟨op.F, op.h⟩)
        ∧ (final.fh_.map Prod.fst).Nodup
        ∧ (∀ name, name ∈ final.fh_.map Prod.fst ↔ name ∈ three_creates.map CreateOp.name) :=
  ⟨rfl, by simp [three_creates],
    fh_holds_last_handler empty_registry three_creates rfl (by simp [three_creates])⟩

/-- C7: after two accepted `create<F>` calls under one name with handlers
`h1` then `h2` of one signature (0 to 5 parameters), the engine's
registration for that name and arity carries as user data the address the map
entry owns, the holder there stores `h2`, and an invocation with that many
cells writes the one result `h2(get<P1>(0), ..., get<Pn>(n-1))`. -/
theorem second_registration_is_invoked {Cell : Type} {V : CType → Type}
    (cget : (T : CType) → Nat → List Cell → V T)
    (self : function V) (name : String) (F : Signature)
    (h1 h2 : Fn V F.Args (V F.R)) (values : List Cell)
    (hn : F.Args.length ≤ 5) (hv : values.length = F.Args.length) :
    ∃ s1 s2 p, self.create SQLITE_OK name F h1 = some (SQLITE_OK, s1)
      ∧ s1.create SQLITE_OK name F h2 = some (SQLITE_OK, s2)
      ∧ (s2.db_.find name F.Args.length).map FuncDef.pApp = some (some p)
      ∧ map_find s2.fh_ name = some p
      ∧ s2.mem.deref (some p) = some ⟨F, h2⟩
      ∧ ∃ tr, s2.db_.invoke cget s2.mem name values = some tr
          ∧ results tr = [⟨F.R, positional cget values F.Args h2 0⟩] := by
  have hfh1 : map_find (self.created SQLITE_OK name F h1).fh_ name = some self.mem.next :=
    map_find_map_assign_self _ _ _
  have hnext : (self.created SQLITE_OK name F h1).mem.next = self.mem.next + 1 := by
    simp only [function.created, Heap.new]
    cases map_find self.fh_ name <;> rfl
  have hfind : ((self.created SQLITE_OK name F h1).created SQLITE_OK name F h2).db_.find
      name F.Args.length
      = some ⟨name, F.Args.length, SQLITE_UTF8, some (self.mem.next + 1),
          some (Callback.functionx_impl F.R F.Args), none, none⟩ := by
    simp only [function.created, hnext]
    rw [← hnext]
    exact sqlite3_find_create_ok _ _ _ _ _ _ _ _
  have hderef : ((self.created SQLITE_OK name F h1).created SQLITE_OK name F h2).mem.deref
      (some (self.mem.next + 1)) = some ⟨F, h2⟩ := by
    show (((self.created SQLITE_OK name F h1).mem.new ⟨F, h2⟩).2.delete
      (map_find (self.created SQLITE_OK name F h1).fh_ name)).deref _ = _
    rw [hfh1, Heap.deref_delete_ne _ _ _ (by simp), ← hnext, Heap.deref_new_self]
  refine ⟨_, _, self.mem.next + 1, function.create_eq_created self SQLITE_OK name F h1 hn,
    function.create_eq_created _ SQLITE_OK name F h2 hn, ?_, ?_, hderef, ?_⟩
  · rw [hfind]; rfl
  · rw [← hnext]; exact map_find_map_assign_self _ _ _
  · have hrun := functionx_impl_results cget F.R F.Args h2
      ((self.created SQLITE_OK name F h1).created SQLITE_OK name F h2).mem
      ⟨some (self.mem.next + 1), 0⟩ values.length values hderef
    simp only [sqlite3.invoke, hv, hfind, Callback.scalar]
    rw [← hv]
    exact hrun

/-- C7 on the handlers `one` and `two` registered under `f`: the call `f()`
writes `2`. -/
theorem second_registration_is_invoked_witness :
    ∃ s1 s2 p, empty_registry.create SQLITE_OK "f" ⟨CType.int, []⟩ one = some (SQLITE_OK, s1)
      ∧ s1.create SQLITE_OK "f" ⟨CType.int, []⟩ two = some (SQLITE_OK, s2)
      ∧ (s2.db_.find "f" 0).map FuncDef.pApp = some (some p)
      ∧ map_find s2.fh_ "f" = some p
      ∧ s2.mem.deref (some p) = some ⟨⟨CType.int, []⟩, two⟩
      ∧ ∃ tr, s2.db_.invoke int_get s2.mem "f" [] = some tr
          ∧ results tr = [⟨CType.int, (2 : Int)⟩] :=
  second_registration_is_invoked int_get empty_registry "f" ⟨CType.int, []⟩ one two []
    (by decide) rfl

/-- C8, at two accepted `create` calls under the name `f`, `int()` then
`int(int)`: the engine still holds the registration of `f` with no
arguments, its user data is address `0`, no map entry owns address `0`, the
holder there has been released, and the call `f()` reads through the
released pointer. -/
theorem recreate_other_arity_leaves_stale_user_data :
    ∃ s, empty_registry.run recreate_other_arity = some s
      ∧ (s.db_.find "f" 0).map FuncDef.pApp = some (some 0)
      ∧ s.fh_ = [("f", 1)]
      ∧ s.mem.deref (some 0) = none
      ∧ s.db_.invoke int_get s.mem "f" [] = none :=
  ⟨_, rfl, rfl, rfl, rfl, rfl⟩

/-- C8, second input: when the engine rejects the second `create` under the
name `g`, it keeps the first registration, whose holder the map has already
released. -/
theorem rejected_recreate_leaves_stale_user_data :
    ∃ s, empty_registry.run recreate_rejected = some s
      ∧ (s.db_.find "g" 0).map FuncDef.pApp = some (some 0)
      ∧ s.fh_ = [("g", 1)]
      ∧ s.mem.deref (some 0) = none
      ∧ s.db_.invoke int_get s.mem "g" [] = none :=
  ⟨_, rfl, rfl, rfl, rfl, rfl⟩

/-- C9: every typed `create`, scalar or aggregate, with 0 to 5 parameters
calls the engine's registration entry point exactly once and returns the
status the engine answered, whatever that status is. -/
theorem create_returns_engine_status (V : CType → Type) :
    (∀ (self : function V) (status : Int) (name : String) (F : Signature)
        (h : Fn V F.Args (V F.R)), F.Args.length ≤ 5 →
        ∃ self', self.create status name F h = some (status, self')
          ∧ ∃ d, self'.db_.calls = self.db_.calls ++ [d])
      ∧ (∀ (R : CType) (self : aggregate V) (status : Int) (name : String)
          (Ps : List CType) (T : Accumulator V Ps R), Ps.length ≤ 5 →
          ∃ self', self.create status name Ps T = some (status, self')
            ∧ ∃ d, self'.db_.calls = self.db_.calls ++ [d]) := by
  constructor
  · intro self status name F h hn
    exact ⟨_, function.create_eq_created self status name F h hn, _, rfl⟩
  · intro R self status name Ps T hn
    obtain ⟨xStep, hx⟩ := aggregate.create_eq_call self status name Ps T hn
    exact ⟨_, hx, _, rfl⟩

/-- C9 on a scalar `create` the engine answers with status `5` and an
aggregate `create` it answers with status `21`. -/
theorem create_returns_engine_status_witness :
    (∃ self', empty_registry.create 5 "f" ⟨CType.int, [CType.int, CType.int]⟩ add2
          = some (5, self')
        ∧ ∃ d, self'.db_.calls = empty_registry.db_.calls ++ [d])
      ∧ (∃ self', empty_aggregate.create 21 "n" [] counter = some (21, self')
        ∧ ∃ d, self'.db_.calls = empty_aggregate.db_.calls ++ [d]) :=
  ⟨(create_returns_engine_status IntV).1 empty_registry 5 "f"
      ⟨CType.int, [CType.int, CType.int]⟩ add2 (by decide),
    (create_returns_engine_status IntV).2 CType.int empty_aggregate 21 "n" [] counter
      (by decide)⟩

/-- C10: `function_traits` of `R(P1, ..., Pn)` and of `R(*)(P1, ..., Pn)`
has return type `R`, arity `n` and `argument<i> = P(i+1)` for `i < n`; the
scalar `create` of a signature with `n <= 5` parameters makes one
registration call, under arity `n`, with the new holder as user data and the
adapter `functionx_impl<R, P1, ..., Pn>`, which is the engine's registration
for that name and arity when the engine accepts it; the aggregate `create`
with `n <= 5` parameters passes `stepn_impl<T, P1, ..., Pn>` and
`finishN_impl<T>` under arity `n`; with more than 5 parameters there is no
`create` of either kind. -/
theorem create_registers_matching_adapter (V : CType → Type) :
    (∀ (R : CType) (Args : List CType),
        (function_traits.of (FType.fn R Args)).return_type = R
          ∧ (function_traits.of (FType.fn R Args)).arity = Args.length
          ∧ (∀ (i : Nat) (hi : i < Args.length),
              (function_traits.of (FType.fn R Args)).argument i = some Args[i])
          ∧ function_traits.of (FType.fn_ptr R Args) = function_traits.of (FType.fn R Args))
      ∧ (∀ (self : function V) (status : Int) (name : String) (F : Signature)
          (h : Fn V F.Args (V F.R)), F.Args.length ≤ 5 →
          ∃ self' p, self.create status name F h = some (status, self')
            ∧ map_find self'.fh_ name = some p
            ∧ self'.db_.calls = self.db_.calls ++ [⟨name, F.Args.length, SQLITE_UTF8, some p,
                some (Callback.functionx_impl F.R F.Args), none, none⟩]
            ∧ (status = SQLITE_OK → self'.db_.find name F.Args.length
                = some ⟨name, F.Args.length, SQLITE_UTF8, some p,
                    some (Callback.functionx_impl F.R F.Args), none, none⟩))
      ∧ (∀ (R : CType) (self : aggregate V) (status : Int) (name : String),
          (∀ (T : Accumulator V [] R), self.create status name [] T
              = some (self.registered status name 0
                  (Callback.step0_impl T) (Callback.finishN_impl T)))
          ∧ (∀ (P1 : CType) (T : Accumulator V [P1] R), self.create status name [P1] T
              = some (self.registered status name 1
                  (Callback.step1_impl T) (Callback.finishN_impl T)))
          ∧ (∀ (P1 P2 : CType) (T : Accumulator V [P1, P2] R),
              self.create status name [P1, P2] T
              = some (self.registered status name 2
                  (Callback.step2_impl T) (Callback.finishN_impl T)))
          ∧ (∀ (P1 P2 P3 : CType) (T : Accumulator V [P1, P2, P3] R),
              self.create status name [P1, P2, P3] T
              = some (self.registered status name 3
                  (Callback.step3_impl T) (Callback.finishN_impl T)))
          ∧ (∀ (P1 P2 P3 P4 : CType) (T : Accumulator V [P1, P2, P3, P4] R),
              self.create status name [P1, P2, P3, P4] T
              = some (self.registered status name 4
                  (Callback.step4_impl T) (Callback.finishN_impl T)))
          ∧ (∀ (P1 P2 P3 P4 P5 : CType) (T : Accumulator V [P1, P2, P3, P4, P5] R),
              self.create status name [P1, P2, P3, P4, P5] T
              = some (self.registered status name 5
                  (Callback.step5_impl T) (Callback.finishN_impl T))))
      ∧ (∀ (self : function V) (status : Int) (name : String) (F : Signature)
          (h : Fn V F.Args (V F.R)), 5 < F.Args.length →
          self.create status name F h = none)
      ∧ (∀ (R : CType) (self : aggregate V) (status : Int) (name : String)
          (Ps : List CType) (T : Accumulator V Ps R), 5 < Ps.length →
          self.create status name Ps T = none) := by
  refine ⟨?_, ?_, ?_, ?_, ?_⟩
  · intro R Args
    refine ⟨rfl, rfl, ?_, rfl⟩
    intro i hi
    simp [function_traits.argument, function_traits.of, hi]
  · intro self status name F h hn
    refine ⟨_, self.mem.next, function.create_eq_created self status name F h hn,
      map_find_map_assign_self _ _ _, rfl, ?_⟩
    intro hs
    subst hs
    exact sqlite3_find_create_ok _ _ _ _ _ _ _ _
  · intro R self status name
    exact ⟨fun _ => rfl, fun _ _ => rfl, fun _ _ _ => rfl, fun _ _ _ _ => rfl,
      fun _ _ _ _ _ => rfl, fun _ _ _ _ _ _ => rfl⟩
  · intro self status name F h hn
    exact function.create_none self status name F h hn
  · intro R self status name Ps T hn
    match Ps, T, hn with
    | [], _, hn => simp at hn
    | [_], _, hn => simp at hn
    | [_, _], _, hn => simp at hn
    | [_, _, _], _, hn => simp at hn
    | [_, _, _, _], _, hn => simp at hn
    | [_, _, _, _, _], _, hn => simp at hn
    | _ :: _ :: _ :: _ :: _ :: _ :: _, _, _ => rfl

/-- C10 on `add2`, registered under arity 2 with `functionx_impl<int, int,
int>`, and on a handler and an accumulator with six parameters, for which
there is no `create`. -/
theorem create_registers_matching_adapter_witness :
    (∃ self' p, empty_registry.create SQLITE_OK "add2" ⟨CType.int, [CType.int, CType.int]⟩ add2
          = some (SQLITE_OK, self')
        ∧ map_find self'.fh_ "add2" = some p
        ∧ self'.db_.calls = empty_registry.db_.calls ++ [⟨"add2", 2, SQLITE_UTF8, some p,
            some (Callback.functionx_impl CType.int [CType.int, CType.int]), none, none⟩]
        ∧ (SQLITE_OK = SQLITE_OK → self'.db_.find "add2" 2
            = some ⟨"add2", 2, SQLITE_UTF8, some p,
                some (Callback.functionx_impl CType.int [CType.int, CType.int]), none, none⟩))
      ∧ empty_registry.create SQLITE_OK "sum6" ⟨CType.int, six_ints⟩ sum6 = none
      ∧ empty_aggregate.create SQLITE_OK "adder6" six_ints adder6 = none :=
  ⟨(create_registers_matching_adapter IntV).2.1 empty_registry SQLITE_OK "add2"
      ⟨CType.int, [CType.int, CType.int]⟩ add2 (by decide),
    (create_registers_matching_adapter IntV).2.2.2.1 empty_registry SQLITE_OK "sum6"
      ⟨CType.int, six_ints⟩ sum6 (by decide),
    (create_registers_matching_adapter IntV).2.2.2.2 CType.int empty_aggregate SQLITE_OK
      "adder6" six_ints adder6 (by decide)⟩

end ext
end sqlite3pp
